import Mathlib

/-!
Shallow embedding of the WebRTC peer-mesh orchestrator (`WebRTCService`) of the
engage-classroom application, together with proofs about its signaling,
registry and media-stream behaviour.

The TypeScript class keeps these mutable fields:
  - `peerConnections : Map<string, PeerConnection>` (the peer registry),
  - `connectionAttempts : Map<string, number>`,
  - `localStream : MediaStream | null`,
  - identity fields (`roomId`, `userId`, `userName`),
  - `supabaseChannel` (the signaling channel, null until set up).

We model it as an explicit state record.  Browser objects are modelled by
ids into explicit heaps carried in the state:
  - an `RTCPeerConnection` is a `Conn` (closed flag, senders, descriptions,
    ICE candidates) stored in the `conns` heap and referenced by its `id`;
  - a `MediaStream` produced by an `ontrack` handler is an entry of the
    `streams` heap (fresh ids witness that the handler allocates a *new*
    stream object on every event);
  - a `MediaStreamTrack` is a bare `Nat`; `track.stop()` appends the id to
    `stoppedTracks`; the local stream is its list of track ids.

Effects that leave the service (signaling sends, the `onRemoteStream` and
`onPeerDisconnected` callbacks, `console.error` logs, the channel
unsubscribe) are collected in an `Event` trace returned next to the state.

External nondeterminism (whether `createOffer`, the
`setRemoteDescription`/`createAnswer` chain, `setRemoteDescription` in the
answer handler, or `addIceCandidate` succeed, and which SDP value results)
is passed in explicitly through an `Env` record, mirroring how the browser
resolves those promises.
-/

/-- A signaling message, translated from the `SignalingMessage` tagged union.
SDP blobs and ICE candidates are opaque to the orchestrator and modelled as
`Nat`. -/
inductive SignalingMessage where
  | offer (sdp : Nat) (senderName senderId : String)
  | answer (sdp : Nat) (senderName senderId : String)
  | candidate (cand : Option Nat) (senderName senderId : String)
  | join (senderName senderId : String)
  | leave (senderId : String)
deriving Repr, DecidableEq

/-- The `senderId` field present on every message variant. -/
def SignalingMessage.senderId : SignalingMessage → String
  | .offer _ _ sid => sid
  | .answer _ _ sid => sid
  | .candidate _ _ sid => sid
  | .join _ sid => sid
  | .leave sid => sid

/-- `message.type === 'leave' || message.type === 'join'` (the two types the
self-filter in `handleSignalingMessage` exempts). -/
def SignalingMessage.isLeaveOrJoin : SignalingMessage → Bool
  | .leave _ => true
  | .join _ _ => true
  | _ => false

/-- An `RTCRtpSender`: holds the outgoing track, or `none` after
`replaceTrack(null)`. -/
structure Sender where
  track : Option Nat
deriving Repr, DecidableEq

/-- An `RTCPeerConnection` object, as far as the orchestrator observes it. -/
structure Conn where
  id : Nat
  closed : Bool
  senders : List Sender
  localDesc : Option Nat
  remoteDesc : Option Nat
  candidates : List Nat
deriving Repr, DecidableEq

/-- A peer-registry entry, translated from the `PeerConnection` interface:
`connection` (a reference into the `conns` heap), `stream` (a reference into
the `streams` heap, absent until an inbound track arrives) and `name`. -/
structure PeerRecord where
  conn : Nat
  stream : Option Nat
  name : String
deriving Repr, DecidableEq

/-- Observable effects of the service: outgoing signaling messages, the two
callbacks, `console.error` logs, and the channel unsubscribe. -/
inductive Event where
  | sentMessage (m : SignalingMessage)
  | onRemoteStream (streamId : Nat) (peerId peerName : String)
  | onPeerDisconnected (peerId : String)
  | logError (context : String)
  | unsubscribed
deriving Repr, DecidableEq

/-- The mutable state of a `WebRTCService` instance plus the heaps of browser
objects it references. -/
structure ServiceState where
  peerConnections : List (String × PeerRecord)
  connectionAttempts : List (String × Nat)
  conns : List Conn
  streams : List (Nat × List Nat)
  localStream : Option (List Nat)
  stoppedTracks : List Nat
  roomId : String
  userId : String
  userName : String
  channelReady : Bool
  nextConnId : Nat
  nextStreamId : Nat
deriving Repr, DecidableEq

/-- External outcomes of the fallible browser calls, mirroring promise
resolution: `some sdp` / `true` means success. -/
structure Env where
  offerResult : Option Nat
  answerResult : Option Nat
  setRemoteOk : Bool
  addCandidateOk : Bool
deriving Repr, DecidableEq

/-- `Map.get`, on the association-list model of a JS `Map`. -/
def mget {α : Type} : List (String × α) → String → Option α
  | [], _ => none
  | p :: rest, k => if p.1 = k then some p.2 else mget rest k

/-- `Map.set`: update in place when the key exists, append otherwise. -/
def mset {α : Type} : List (String × α) → String → α → List (String × α)
  | [], k, v => [(k, v)]
  | p :: rest, k, v => if p.1 = k then (k, v) :: rest else p :: mset rest k v

/-- `Map.delete`. -/
def mdel {α : Type} : List (String × α) → String → List (String × α)
  | [], _ => []
  | p :: rest, k => if p.1 = k then mdel rest k else p :: mdel rest k

/-- Look a connection object up in the heap. -/
def getConn (s : ServiceState) (cid : Nat) : Option Conn :=
  s.conns.find? (fun c => c.id = cid)

/-- Mutate the connection object with the given id in the heap. -/
def updConn (s : ServiceState) (cid : Nat) (f : Conn → Conn) : ServiceState :=
  { s with conns := s.conns.map (fun c => if c.id = cid then f c else c) }

/-- `this.maxConnectionAttempts = 3`. -/
def maxConnectionAttempts : Nat := 3

/-- The `new WebRTCService()` constructor state. -/
def initialState : ServiceState :=
  { peerConnections := [], connectionAttempts := [], conns := [], streams := []
    localStream := none, stoppedTracks := [], roomId := "", userId := ""
    userName := "", channelReady := false, nextConnId := 0, nextStreamId := 0 }

/-- Result of `createPeerConnection`: the state after all mutations that
happened before return/throw, the emitted events, the returned connection id
(on normal return) and the thrown error message (on throw).  In JS a throw
does not roll back earlier mutations, so the partial state is kept. -/
structure CPCResult where
  state : ServiceState
  events : List Event
  ret : Option Nat
  err : Option String
deriving Repr, DecidableEq

/-- `WebRTCService.createPeerConnection(peerId, peerName)`, with the outcome
of `createOffer` supplied as `offerResult` (`none` = the promise rejected).
Faithful to the source order: existing-record early return; attempt check and
increment; connection allocation; registry insertion; local-track attachment;
offer creation with on-failure cleanup (close + registry delete, attempts kept)
and rethrow. -/
def createPeerConnection (s : ServiceState) (peerId peerName : String)
    (offerResult : Option Nat) : CPCResult :=
  match mget s.peerConnections peerId with
  | some existing => { state := s, events := [], ret := some existing.conn, err := none }
  | none =>
    let attempts := (mget s.connectionAttempts peerId).getD 0
    if maxConnectionAttempts ≤ attempts then
      { state := s, events := [], ret := none, err := some "max connection attempts" }
    else
      let s1 := { s with connectionAttempts := mset s.connectionAttempts peerId (attempts + 1) }
      let cid := s1.nextConnId
      let localTracks := s1.localStream.getD []
      let newConn : Conn :=
        { id := cid, closed := false
          senders := localTracks.map (fun t => { track := some t })
          localDesc := none, remoteDesc := none, candidates := [] }
      let s2 := { s1 with
        nextConnId := cid + 1
        conns := s1.conns ++ [newConn]
        peerConnections := mset s1.peerConnections peerId
          { conn := cid, stream := none, name := peerName } }
      match offerResult with
      | some sdp =>
        let s3 := updConn s2 cid (fun c => { c with localDesc := some sdp })
        { state := s3
          events := [.sentMessage (.offer sdp s3.userName s3.userId)]
          ret := some cid, err := none }
      | none =>
        let s3 := updConn s2 cid (fun c => { c with closed := true })
        let s4 := { s3 with peerConnections := mdel s3.peerConnections peerId }
        { state := s4, events := [.logError "createOffer"], ret := none
          err := some "offer failed" }

/-- `WebRTCService.handleOffer(message)`, with the outcome of the
`setRemoteDescription` / `createAnswer` / `setLocalDescription` chain supplied
as `answerResult` (`none` = some step in the chain rejected; in that case we
model the failure as occurring at `setRemoteDescription`, before any
description is recorded).  The catch branch only logs: it closes nothing and
removes nothing from the registry. -/
def handleOffer (s : ServiceState) (sdp : Nat) (senderName senderId : String)
    (answerResult : Option Nat) : ServiceState × List Event :=
  let (s1, cid) :=
    match mget s.peerConnections senderId with
    | some pc => (s, pc.conn)
    | none =>
      let cid := s.nextConnId
      let localTracks := s.localStream.getD []
      let newConn : Conn :=
        { id := cid, closed := false
          senders := localTracks.map (fun t => { track := some t })
          localDesc := none, remoteDesc := none, candidates := [] }
      ({ s with
          nextConnId := cid + 1
          conns := s.conns ++ [newConn]
          peerConnections := mset s.peerConnections senderId
            { conn := cid, stream := none, name := senderName } }, cid)
  match answerResult with
  | some answerSdp =>
    let s2 := updConn s1 cid
      (fun c => { c with remoteDesc := some sdp, localDesc := some answerSdp })
    (s2, [.sentMessage (.answer answerSdp s2.userName s2.userId)])
  | none => (s1, [.logError "handleOffer"])

/-- `WebRTCService.handleAnswer(message)`: missing record logs and returns;
otherwise `setRemoteDescription`, whose failure is caught and only logged. -/
def handleAnswer (s : ServiceState) (sdp : Nat) (senderId : String)
    (setRemoteOk : Bool) : ServiceState × List Event :=
  match mget s.peerConnections senderId with
  | none => (s, [.logError "no peer connection"])
  | some pc =>
    if setRemoteOk then
      (updConn s pc.conn (fun c => { c with remoteDesc := some sdp }), [])
    else (s, [.logError "handleAnswer"])

/-- `WebRTCService.handleCandidate(message)`: missing record logs and returns;
a `null` candidate is skipped; `addIceCandidate` failure is caught and only
logged. -/
def handleCandidate (s : ServiceState) (cand : Option Nat) (senderId : String)
    (addCandidateOk : Bool) : ServiceState × List Event :=
  match mget s.peerConnections senderId with
  | none => (s, [.logError "no peer connection"])
  | some pc =>
    match cand with
    | none => (s, [])
    | some c =>
      if addCandidateOk then
        (updConn s pc.conn (fun cn => { cn with candidates := cn.candidates ++ [c] }), [])
      else (s, [.logError "handleCandidate"])

/-- `WebRTCService.handlePeerLeave(peerId)`: only when a record exists, close
its connection, delete the record, delete the attempts counter and invoke
`onPeerDisconnected`. -/
def handlePeerLeave (s : ServiceState) (peerId : String) : ServiceState × List Event :=
  match mget s.peerConnections peerId with
  | none => (s, [])
  | some pc =>
    let s1 := updConn s pc.conn (fun c => { c with closed := true })
    let s2 := { s1 with
      peerConnections := mdel s1.peerConnections peerId
      connectionAttempts := mdel s1.connectionAttempts peerId }
    (s2, [.onPeerDisconnected peerId])

/-- Result of `handleSignalingMessage`: final state, events, and the error the
handler itself raised, if any (a raise propagates to the channel callback's
catch, which merely logs it). -/
structure MsgResult where
  state : ServiceState
  events : List Event
  err : Option String
deriving Repr, DecidableEq

/-- `WebRTCService.handleSignalingMessage(message)`.  Messages from self are
ignored unless they are `join` or `leave`; a `join` from a different sender
runs `createPeerConnection` (whose raise propagates); the other types dispatch
to their handlers. -/
def handleSignalingMessage (env : Env) (s : ServiceState) (m : SignalingMessage) :
    MsgResult :=
  if m.isLeaveOrJoin = false ∧ m.senderId = s.userId then
    { state := s, events := [], err := none }
  else
    match m with
    | .join name sid =>
      if sid ≠ s.userId then
        let r := createPeerConnection s sid name env.offerResult
        { state := r.state, events := r.events, err := r.err }
      else { state := s, events := [], err := none }
    | .offer sdp name sid =>
      let r := handleOffer s sdp name sid env.answerResult
      { state := r.1, events := r.2, err := none }
    | .answer sdp _ sid =>
      let r := handleAnswer s sdp sid env.setRemoteOk
      { state := r.1, events := r.2, err := none }
    | .candidate cand _ sid =>
      let r := handleCandidate s cand sid env.addCandidateOk
      { state := r.1, events := r.2, err := none }
    | .leave sid =>
      let r := handlePeerLeave s sid
      { state := r.1, events := r.2, err := none }

/-- The `ontrack` handler installed on a peer's connection (identically in
`createPeerConnection` and in `handleOffer`; the closure captures the peer's
id and name).  On every track event it allocates a *new* `MediaStream`
holding the event's tracks, stores it in the record when one exists, and
invokes `onRemoteStream`. -/
def fireOntrack (s : ServiceState) (peerId peerName : String)
    (eventTracks : List Nat) : ServiceState × List Event :=
  let sid := s.nextStreamId
  let s1 := { s with nextStreamId := sid + 1, streams := s.streams ++ [(sid, eventTracks)] }
  let s2 :=
    match mget s1.peerConnections peerId with
    | some pi =>
      { s1 with peerConnections := mset s1.peerConnections peerId { pi with stream := some sid } }
    | none => s1
  (s2, [.onRemoteStream sid peerId peerName])

/-- Connection states distinguished by the `onconnectionstatechange` handler. -/
inductive ConnState where
  | newConn | connecting | connected | disconnected | failed | closed
deriving Repr, DecidableEq

/-- The `onconnectionstatechange` handler installed on a peer's connection:
on `disconnected`, `failed` or `closed` it runs `handlePeerLeave`. -/
def fireConnectionStateChange (s : ServiceState) (peerId : String)
    (st : ConnState) : ServiceState × List Event :=
  match st with
  | .disconnected | .failed | .closed => handlePeerLeave s peerId
  | _ => (s, [])

/-- `peerInfo.connection.close()` for one registry entry, as iterated by
`leaveRoom`. -/
def closeConnStep (acc : ServiceState) (p : String × PeerRecord) : ServiceState :=
  updConn acc p.2.conn (fun c => { c with closed := true })

/-- `WebRTCService.leaveRoom()`: when the channel is set up, broadcast
`leave` and unsubscribe; close every connection in the registry; clear the
registry; stop and drop the local stream.  The attempts map is not touched
and no callback is invoked. -/
def leaveRoom (s : ServiceState) : ServiceState × List Event :=
  let (s1, evs) :=
    if s.channelReady then
      (s, [Event.sentMessage (.leave s.userId), Event.unsubscribed])
    else (s, [])
  let s2 := s1.peerConnections.foldl closeConnStep s1
  let s3 := { s2 with peerConnections := [] }
  match s3.localStream with
  | some tracks =>
    ({ s3 with stoppedTracks := s3.stoppedTracks ++ tracks, localStream := none }, evs)
  | none => (s3, evs)

/-- `sender.replaceTrack(null)` applied to the first sender carrying the given
track (`getSenders().find(...)` picks the first match). -/
def replaceFirstSenderWithTrack : List Sender → Nat → List Sender
  | [], _ => []
  | sd :: rest, t =>
    if sd.track = some t then { sd with track := none } :: rest
    else sd :: replaceFirstSenderWithTrack rest t

/-- `sender.replaceTrack(null)` on the first sender of one registry entry's
connection that carries track `t`, as iterated inside `updateLocalStream`. -/
def detachStep (t : Nat) (acc : ServiceState) (p : String × PeerRecord) : ServiceState :=
  updConn acc p.2.conn (fun c => { c with senders := replaceFirstSenderWithTrack c.senders t })

/-- One iteration of the old-track loop of `updateLocalStream`: `track.stop()`
followed by detaching the track from every registered connection. -/
def stopAndDetachStep (acc : ServiceState) (t : Nat) : ServiceState :=
  let acc1 := { acc with stoppedTracks := acc.stoppedTracks ++ [t] }
  acc1.peerConnections.foldl (detachStep t) acc1

/-- `connection.addTrack(track, stream)` for every track of the new stream,
on one registry entry's connection, as iterated by `updateLocalStream`. -/
def addTracksStep (newTracks : List Nat) (acc : ServiceState)
    (p : String × PeerRecord) : ServiceState :=
  updConn acc p.2.conn
    (fun c => { c with senders := c.senders ++ newTracks.map (fun t => { track := some t }) })

/-- `WebRTCService.updateLocalStream(newStream)`: for every track of the old
stream, stop it and null the first matching sender of every registered
connection; install the new stream; add each of its tracks to every
registered connection.  No signaling message is sent and no callback runs. -/
def updateLocalStream (s : ServiceState) (newStream : Option (List Nat)) :
    ServiceState × List Event :=
  let s1 :=
    match s.localStream with
    | none => s
    | some oldTracks => oldTracks.foldl stopAndDetachStep s
  let s2 := { s1 with localStream := newStream }
  let s3 :=
    match newStream with
    | none => s2
    | some newTracks => s2.peerConnections.foldl (addTracksStep newTracks) s2
  (s3, [])

/-- `WebRTCService.initialize(localStream, roomId, userId, userName, cbs)`:
store the fields, set the signaling channel up, and broadcast `join` — the
only message it sends. -/
def initService (s : ServiceState) (localStream : Option (List Nat))
    (roomId userId userName : String) : ServiceState × List Event :=
  let s1 := { s with
    localStream := localStream, roomId := roomId, userId := userId
    userName := userName, channelReady := true }
  (s1, [.sentMessage (.join userName userId)])

/-- Number of `onRemoteStream` invocations for a given peer in a trace. -/
def countRemoteStreamCb (evs : List Event) (pid : String) : Nat :=
  (evs.filter (fun e => match e with
    | .onRemoteStream _ p _ => p = pid
    | _ => false)).length

/-- Number of `onPeerDisconnected` invocations for a given peer in a trace. -/
def countDisconnectCb (evs : List Event) (pid : String) : Nat :=
  (evs.filter (fun e => match e with
    | .onPeerDisconnected p => p = pid
    | _ => false)).length

/-- Whether a trace contains an outgoing `Offer` message. -/
def containsOfferMsg (evs : List Event) : Bool :=
  evs.any (fun e => match e with
    | .sentMessage (.offer _ _ _) => true
    | _ => false)

/-- Whether an event is an invocation of one of the two callbacks. -/
def isCallbackEvent : Event → Bool
  | .onRemoteStream _ _ _ => true
  | .onPeerDisconnected _ => true
  | _ => false

/-! ### Association-list (JS `Map`) lemmas -/

theorem mget_mset_self {α : Type} (m : List (String × α)) (k : String) (v : α) :
    mget (mset m k v) k = some v := by
  induction m with
  | nil => simp [mset, mget]
  | cons p rest ih =>
    by_cases h : p.1 = k
    · simp [mset, h, mget]
    · simp [mset, h, mget, ih]

theorem mget_mset_ne {α : Type} (m : List (String × α)) (k k' : String) (v : α)
    (h : k' ≠ k) : mget (mset m k v) k' = mget m k' := by
  have hk : ¬ k = k' := fun e => h e.symm
  induction m with
  | nil => simp [mset, mget, hk]
  | cons p rest ih =>
    obtain ⟨pk, pv⟩ := p
    by_cases hp : pk = k
    · subst hp
      simp [mset, mget, hk]
    · simp only [mset, hp, if_false, mget, ih]

theorem mget_mdel_self {α : Type} (m : List (String × α)) (k : String) :
    mget (mdel m k) k = none := by
  induction m with
  | nil => simp [mdel, mget]
  | cons p rest ih =>
    by_cases h : p.1 = k
    · simp [mdel, h, ih]
    · simp [mdel, h, mget, ih]

theorem mget_mdel_ne {α : Type} (m : List (String × α)) (k k' : String)
    (h : k' ≠ k) : mget (mdel m k) k' = mget m k' := by
  induction m with
  | nil => simp [mdel]
  | cons p rest ih =>
    obtain ⟨pk, pv⟩ := p
    by_cases hp : pk = k
    · subst hp
      rw [mdel, if_pos rfl, ih, mget, if_neg (fun e => h e.symm)]
    · rw [mdel, if_neg hp, mget, mget]
      by_cases hk : pk = k'
      · simp [hk]
      · simp [hk, ih]

theorem mdel_eq_of_mget_none {α : Type} (m : List (String × α)) (k : String)
    (h : mget m k = none) : mdel m k = m := by
  induction m with
  | nil => simp [mdel]
  | cons p rest ih =>
    rw [mget] at h
    by_cases hp : p.1 = k
    · simp [hp] at h
    · rw [if_neg hp] at h
      rw [mdel, if_neg hp, ih h]

theorem mdel_mset_self {α : Type} (m : List (String × α)) (k : String) (v : α)
    (h : mget m k = none) : mdel (mset m k v) k = m := by
  induction m with
  | nil => simp [mset, mdel]
  | cons p rest ih =>
    rw [mget] at h
    by_cases hp : p.1 = k
    · simp [hp] at h
    · rw [if_neg hp] at h
      rw [mset, if_neg hp, mdel, if_neg hp, ih h]

theorem mem_keys_mset {α : Type} (m : List (String × α)) (k x : String) (v : α) :
    x ∈ (mset m k v).map Prod.fst ↔ x ∈ m.map Prod.fst ∨ x = k := by
  induction m with
  | nil => simp [mset]
  | cons p rest ih =>
    obtain ⟨pk, pv⟩ := p
    by_cases hp : pk = k
    · subst hp
      simp [mset, List.mem_cons]
      tauto
    · simp [mset, hp, List.mem_cons, ih]
      tauto

theorem keys_mset_nodup {α : Type} (m : List (String × α)) (k : String) (v : α)
    (h : (m.map Prod.fst).Nodup) : ((mset m k v).map Prod.fst).Nodup := by
  induction m with
  | nil => simp [mset]
  | cons p rest ih =>
    rw [List.map_cons, List.nodup_cons] at h
    by_cases hp : p.1 = k
    · rw [mset, if_pos hp]
      rw [List.map_cons, List.nodup_cons]
      exact ⟨hp ▸ h.1, h.2⟩
    · rw [mset, if_neg hp, List.map_cons, List.nodup_cons]
      refine ⟨?_, ih h.2⟩
      intro hmem
      rcases (mem_keys_mset rest k p.1 v).mp hmem with hin | heq
      · exact h.1 hin
      · exact hp heq

theorem mdel_eq_filter {α : Type} (m : List (String × α)) (k : String) :
    mdel m k = m.filter (fun p => decide ¬ p.1 = k) := by
  induction m with
  | nil => simp [mdel]
  | cons p rest ih =>
    by_cases hp : p.1 = k
    · simp [mdel, hp, List.filter, ih]
    · simp [mdel, hp, List.filter, ih]

theorem keys_mdel_nodup {α : Type} (m : List (String × α)) (k : String)
    (h : (m.map Prod.fst).Nodup) : ((mdel m k).map Prod.fst).Nodup := by
  rw [mdel_eq_filter]
  exact h.sublist (List.Sublist.map Prod.fst (List.filter_sublist m))

/-! ### Fold helper lemmas -/

theorem foldl_fix {α β : Type} (g : ServiceState → β) (f : ServiceState → α → ServiceState)
    (h : ∀ s a, g (f s a) = g s) (l : List α) (s : ServiceState) :
    g (l.foldl f s) = g s := by
  induction l generalizing s with
  | nil => rfl
  | cons a rest ih => rw [List.foldl_cons, ih, h]

theorem foldl_inv {α : Type} (f : ServiceState → α → ServiceState) (P : ServiceState → Prop)
    (h : ∀ s a, P s → P (f s a)) (l : List α) (s : ServiceState) (h0 : P s) :
    P (l.foldl f s) := by
  induction l generalizing s with
  | nil => exact h0
  | cons a rest ih => exact ih _ (h s a h0)

theorem foldl_establish {α : Type} (f : ServiceState → α → ServiceState)
    (P : α → ServiceState → Prop)
    (hest : ∀ s a, P a (f s a))
    (hpres : ∀ s a b, P b s → P b (f s a)) (l : List α) (s : ServiceState) :
    ∀ a ∈ l, P a (l.foldl f s) := by
  induction l generalizing s with
  | nil => intro a ha; cases ha
  | cons x rest ih =>
    intro a ha
    rcases List.mem_cons.mp ha with rfl | ha
    · exact foldl_inv f (P a) (fun s b h => hpres s b a h) rest (f s a) (hest s a)
    · exact ih (f s x) a ha

/-! ### Concrete fixtures shared by witnesses and counterexamples -/

/-- An environment in which every browser call succeeds. -/
def envOK : Env :=
  { offerResult := some 42, answerResult := some 7, setRemoteOk := true, addCandidateOk := true }

/-- An environment in which every browser call fails. -/
def envFail : Env :=
  { offerResult := none, answerResult := none, setRemoteOk := false, addCandidateOk := false }

/-- A service that has been set up with a two-track camera stream and has
announced itself in room `room` as user `self`. -/
def baseState : ServiceState := (initService initialState (some [0, 1]) "room" "self" "Self").1

/-- `baseState` after peer `p1` joined and the offer round-trip started. -/
def peerState : ServiceState := (handleSignalingMessage envOK baseState (.join "P1" "p1")).state

/-! ### C10 -/

/-- Claim C10: receiving an `Answer`, `Candidate` or `Leave` message whose
`senderId` has no record in the peer registry leaves the whole state
unchanged and invokes no callback; `handlePeerLeave` in particular notifies
only when a record existed. -/
theorem C10_unknown_sender_noop (env : Env) (s : ServiceState) (sdp : Nat)
    (cand : Option Nat) (nm sid : String)
    (h : mget s.peerConnections sid = none) :
    ((handleSignalingMessage env s (.answer sdp nm sid)).state = s ∧
      (handleSignalingMessage env s (.answer sdp nm sid)).events.filter isCallbackEvent = []) ∧
    ((handleSignalingMessage env s (.candidate cand nm sid)).state = s ∧
      (handleSignalingMessage env s (.candidate cand nm sid)).events.filter isCallbackEvent = []) ∧
    ((handleSignalingMessage env s (.leave sid)).state = s ∧
      (handleSignalingMessage env s (.leave sid)).events = []) := by
  by_cases hsid : sid = s.userId
  · subst hsid
    refine ⟨⟨?_, ?_⟩, ⟨?_, ?_⟩, ⟨?_, ?_⟩⟩ <;>
      simp [handleSignalingMessage, SignalingMessage.isLeaveOrJoin,
        SignalingMessage.senderId, handleAnswer, handleCandidate, handlePeerLeave,
        h, isCallbackEvent, List.filter]
  · refine ⟨⟨?_, ?_⟩, ⟨?_, ?_⟩, ⟨?_, ?_⟩⟩ <;>
      simp [handleSignalingMessage, SignalingMessage.isLeaveOrJoin,
        SignalingMessage.senderId, handleAnswer, handleCandidate, handlePeerLeave,
        h, hsid, isCallbackEvent, List.filter]

/-- Witness for C10 at a concrete state: an `Answer` from the unknown peer
`q` leaves `baseState` unchanged. -/
theorem C10_unknown_sender_noop_witness :
    (handleSignalingMessage envOK baseState (.answer 5 "Q" "q")).state = baseState :=
  (C10_unknown_sender_noop envOK baseState 5 (some 5) "Q" "q" (by decide)).1.1

/-! ### C1 -/

theorem map_id_of_ne_id (l : List Conn) (nid : Nat) (f : Conn → Conn)
    (h : ∀ c ∈ l, c.id ≠ nid) :
    l.map (fun c => if c.id = nid then f c else c) = l := by
  induction l with
  | nil => rfl
  | cons c rest ih =>
    rw [List.map_cons, if_neg (h c (List.mem_cons_self c rest)),
      ih (fun x hx => h x (List.mem_cons_of_mem c hx))]

theorem handlePeerLeave_events (s : ServiceState) (x : String) :
    (handlePeerLeave s x).2 = [] ∨ (handlePeerLeave s x).2 = [.onPeerDisconnected x] := by
  unfold handlePeerLeave
  cases mget s.peerConnections x <;> simp

/-- Claim C1: on `Join` from `P ≠ self`, the receiver takes the caller role —
it creates a record for `P`, attaches the local stream's tracks to the new
connection, records an SDP offer and broadcasts an `Offer`; a `Join` from the
local user id triggers nothing; no message whose `senderId` is the local user
id ever leads to an `Offer` being sent; and `initService` sends only the
`Join` announcement. -/
theorem C1_join_makes_caller_offer (env : Env) (s : ServiceState) (nm p : String)
    (sdp : Nat) (ls0 : Option (List Nat)) (rid uid unm : String)
    (henv : env.offerResult = some sdp)
    (hp : p ≠ s.userId)
    (hrec : mget s.peerConnections p = none)
    (hatt : (mget s.connectionAttempts p).getD 0 < maxConnectionAttempts)
    (hfresh : ∀ c ∈ s.conns, c.id ≠ s.nextConnId) :
    mget (handleSignalingMessage env s (.join nm p)).state.peerConnections p =
      some { conn := s.nextConnId, stream := none, name := nm } ∧
    (handleSignalingMessage env s (.join nm p)).state.conns =
      s.conns ++ [{ id := s.nextConnId, closed := false
                    senders := (s.localStream.getD []).map (fun t => { track := some t })
                    localDesc := some sdp, remoteDesc := none, candidates := [] }] ∧
    (handleSignalingMessage env s (.join nm p)).events =
      [.sentMessage (.offer sdp s.userName s.userId)] ∧
    handleSignalingMessage env s (.join nm s.userId) =
      { state := s, events := [], err := none } ∧
    (∀ m : SignalingMessage, m.senderId = s.userId →
      containsOfferMsg (handleSignalingMessage env s m).events = false) ∧
    (initService s ls0 rid uid unm).2 = [.sentMessage (.join unm uid)] := by
  have hne : ¬ maxConnectionAttempts ≤ (mget s.connectionAttempts p).getD 0 :=
    Nat.not_le.mpr hatt
  refine ⟨?_, ?_, ?_, ?_, ?_, rfl⟩
  · simp [handleSignalingMessage, SignalingMessage.isLeaveOrJoin, hp,
      createPeerConnection, hrec, hne, henv, updConn, mget_mset_self]
  · simp [handleSignalingMessage, SignalingMessage.isLeaveOrJoin, hp,
      createPeerConnection, hrec, hne, henv, updConn,
      map_id_of_ne_id s.conns s.nextConnId _ hfresh]
  · simp [handleSignalingMessage, SignalingMessage.isLeaveOrJoin, hp,
      createPeerConnection, hrec, hne, henv, updConn]
  · simp [handleSignalingMessage, SignalingMessage.isLeaveOrJoin]
  · intro m hm
    cases m with
    | offer sdp0 nm0 sid0 =>
      simp [SignalingMessage.senderId] at hm
      simp [handleSignalingMessage, SignalingMessage.isLeaveOrJoin,
        SignalingMessage.senderId, hm, containsOfferMsg]
    | answer sdp0 nm0 sid0 =>
      simp [SignalingMessage.senderId] at hm
      simp [handleSignalingMessage, SignalingMessage.isLeaveOrJoin,
        SignalingMessage.senderId, hm, containsOfferMsg]
    | candidate c0 nm0 sid0 =>
      simp [SignalingMessage.senderId] at hm
      simp [handleSignalingMessage, SignalingMessage.isLeaveOrJoin,
        SignalingMessage.senderId, hm, containsOfferMsg]
    | join nm0 sid0 =>
      simp [SignalingMessage.senderId] at hm
      simp [handleSignalingMessage, SignalingMessage.isLeaveOrJoin,
        SignalingMessage.senderId, hm, containsOfferMsg]
    | leave sid0 =>
      simp only [handleSignalingMessage, SignalingMessage.isLeaveOrJoin,
        Bool.true_eq_false, false_and, if_false]
      rcases handlePeerLeave_events s sid0 with he | he <;>
        simp [he, containsOfferMsg]

/-- Witness for C1: in `baseState`, a `Join` from peer `p1` produces exactly
one broadcast, the `Offer`. -/
theorem C1_join_makes_caller_offer_witness :
    (handleSignalingMessage envOK baseState (.join "P1" "p1")).events =
      [.sentMessage (.offer 42 baseState.userName baseState.userId)] :=
  (C1_join_makes_caller_offer envOK baseState "P1" "p1" 42 (some [0, 1]) "room"
    "self" "Self" (by decide) (by decide) (by decide) (by decide)
    (by decide)).2.2.1

/-! ### C2 -/

/-- Counterexample to claim C2: on peer `p1`'s live connection, two inbound
track events invoke `onRemoteStream` twice — not exactly once at the first
track — and the second event installs a freshly allocated stream object in the
record rather than updating the first stream object in place. -/
theorem C2_counterexample :
    countRemoteStreamCb ((fireOntrack peerState "p1" "P1" [5]).2 ++
        (fireOntrack (fireOntrack peerState "p1" "P1" [5]).1 "p1" "P1" [5, 6]).2) "p1" = 2 ∧
    (mget (fireOntrack (fireOntrack peerState "p1" "P1" [5]).1 "p1" "P1"
        [5, 6]).1.peerConnections "p1").map PeerRecord.stream ≠
      (mget (fireOntrack peerState "p1" "P1" [5]).1.peerConnections "p1").map
        PeerRecord.stream := by
  decide

/-- Claim C2 (amended): `onRemoteStream` is invoked exactly once per inbound
track *event* — every track event for a peer with a registry record triggers
one invocation, carrying a freshly allocated stream object (its id is new to
the `streams` heap) that replaces the record's stream field. -/
theorem C2_callback_once_per_track_event (s : ServiceState) (p nm : String)
    (tracks : List Nat) (pr : PeerRecord)
    (hrec : mget s.peerConnections p = some pr)
    (hfresh : ∀ q ∈ s.streams, q.1 < s.nextStreamId) :
    (fireOntrack s p nm tracks).2 = [.onRemoteStream s.nextStreamId p nm] ∧
    mget (fireOntrack s p nm tracks).1.peerConnections p =
      some { pr with stream := some s.nextStreamId } ∧
    (fireOntrack s p nm tracks).1.streams = s.streams ++ [(s.nextStreamId, tracks)] ∧
    s.nextStreamId ∉ s.streams.map Prod.fst ∧
    (fireOntrack s p nm tracks).1.nextStreamId = s.nextStreamId + 1 := by
  refine ⟨?_, ?_, ?_, ?_, ?_⟩
  · simp [fireOntrack, hrec]
  · simp [fireOntrack, hrec, mget_mset_self]
  · simp [fireOntrack, hrec]
  · intro hmem
    rcases List.mem_map.mp hmem with ⟨q, hq, hfst⟩
    exact absurd (hfst ▸ hfresh q hq) (lt_irrefl _)
  · simp [fireOntrack, hrec]

/-- Witness for the amended C2 at a concrete state: the first track event on
`p1`'s connection invokes `onRemoteStream` once with the fresh stream id. -/
theorem C2_callback_once_per_track_event_witness :
    (fireOntrack peerState "p1" "P1" [5]).2 =
      [.onRemoteStream peerState.nextStreamId "p1" "P1"] :=
  (C2_callback_once_per_track_event peerState "p1" "P1" [5]
    { conn := 0, stream := none, name := "P1" } (by decide) (by decide)).1

/-! ### C3 -/

theorem leaveRoom_events (s : ServiceState) :
    (leaveRoom s).2 =
      if s.channelReady then
        [Event.sentMessage (.leave s.userId), Event.unsubscribed]
      else [] := by
  unfold leaveRoom
  have hloc : ∀ (l : List (String × PeerRecord)) (st : ServiceState),
      (l.foldl closeConnStep st).localStream = st.localStream :=
    fun l st => foldl_fix (fun st => st.localStream) closeConnStep
      (fun _ _ => rfl) l st
  cases hc : s.channelReady <;>
    simp [hc, hloc] <;>
    cases hl : s.localStream <;> simp [hl, hloc]

/-- Counterexample to claim C3: peer `p1` is active (has a registry record)
when `leaveRoom` is called, yet `onPeerDisconnected` is invoked zero times for
it, not exactly once. -/
theorem C3_counterexample :
    (mget peerState.peerConnections "p1").isSome = true ∧
    countDisconnectCb (leaveRoom peerState).2 "p1" = 0 := by
  decide

/-- Claim C3 (amended): `onPeerDisconnected` fires exactly once when a peer's
record is torn down through `handlePeerLeave` — whether by connection-state
failure or by an explicit `Leave`, and forcing a `failed` state followed by an
explicit `Leave` still yields exactly one invocation — but peers active when
`leaveRoom` is called are not notified at all: `leaveRoom` never invokes
`onPeerDisconnected`. -/
theorem C3_single_disconnect_notification (env : Env) (s : ServiceState)
    (p : String) (pr : PeerRecord)
    (hrec : mget s.peerConnections p = some pr) :
    countDisconnectCb ((fireConnectionStateChange s p .failed).2 ++
      (handleSignalingMessage env (fireConnectionStateChange s p .failed).1
        (.leave p)).events) p = 1 ∧
    (handleSignalingMessage env s (.leave p)).events = [.onPeerDisconnected p] ∧
    mget (handleSignalingMessage env s (.leave p)).state.peerConnections p = none ∧
    (∀ q : String, countDisconnectCb (leaveRoom s).2 q = 0) := by
  refine ⟨?_, ?_, ?_, ?_⟩
  · simp [fireConnectionStateChange, handlePeerLeave, hrec, updConn,
      handleSignalingMessage, SignalingMessage.isLeaveOrJoin, mget_mdel_self,
      countDisconnectCb, List.filter]
  · simp [handleSignalingMessage, SignalingMessage.isLeaveOrJoin,
      handlePeerLeave, hrec]
  · simp [handleSignalingMessage, SignalingMessage.isLeaveOrJoin,
      handlePeerLeave, hrec, updConn, mget_mdel_self]
  · intro q
    rw [leaveRoom_events]
    cases s.channelReady <;> simp [countDisconnectCb, List.filter]

/-- Witness for the amended C3: forcing `failed` on `p1`'s connection and then
delivering an explicit `Leave` for `p1` invokes `onPeerDisconnected` exactly
once. -/
theorem C3_single_disconnect_notification_witness :
    countDisconnectCb ((fireConnectionStateChange peerState "p1" .failed).2 ++
      (handleSignalingMessage envOK (fireConnectionStateChange peerState "p1" .failed).1
        (.leave "p1")).events) "p1" = 1 :=
  (C3_single_disconnect_notification envOK peerState "p1"
    { conn := 0, stream := none, name := "P1" } (by decide)).1

/-! ### C4 and C7 -/

/-- `baseState` after three `Join`s from `uX` whose offer creation all failed:
each attempt incremented the counter and was cleaned up, leaving the counter
at the maximum with no record. -/
def exhaustedState : ServiceState :=
  (handleSignalingMessage envFail
    (handleSignalingMessage envFail
      (handleSignalingMessage envFail baseState (.join "X" "uX")).state
      (.join "X" "uX")).state
    (.join "X" "uX")).state

/-- Counterexample to claim C4: with `uX`'s counter at the maximum and no
record, a fresh `Join` for `uX` does **not** start a fresh record with its own
counter — connection creation raises, no record is created, and the counter
stays at 3. -/
theorem C4_counterexample :
    mget exhaustedState.connectionAttempts "uX" = some 3 ∧
    mget exhaustedState.peerConnections "uX" = none ∧
    mget (handleSignalingMessage envOK exhaustedState
      (.join "X" "uX")).state.peerConnections "uX" = none ∧
    mget (handleSignalingMessage envOK exhaustedState
      (.join "X" "uX")).state.connectionAttempts "uX" = some 3 ∧
    (handleSignalingMessage envOK exhaustedState (.join "X" "uX")).err =
      some "max connection attempts" := by
  decide

/-- Claim C4 (amended): the attempt counter never decreases across
`createPeerConnection`, and once it has reached the maximum (with no live
record) offer creation for that id is rejected immediately with no state
change — permanently, a fresh `Join` included; the counter is cleared only by
`handlePeerLeave` while a record for the id exists. -/
theorem C4_attempt_counter_terminal (s : ServiceState) (p nm : String)
    (o : Option Nat)
    (hmax : maxConnectionAttempts ≤ (mget s.connectionAttempts p).getD 0)
    (hrec : mget s.peerConnections p = none) :
    createPeerConnection s p nm o =
      { state := s, events := [], ret := none,
        err := some "max connection attempts" } ∧
    (∀ (s2 : ServiceState) (p2 nm2 : String) (o2 : Option Nat),
      (mget s2.connectionAttempts p2).getD 0 ≤
        (mget (createPeerConnection s2 p2 nm2 o2).state.connectionAttempts p2).getD 0) ∧
    (∀ (s3 : ServiceState) (pr : PeerRecord), mget s3.peerConnections p = some pr →
      mget (handlePeerLeave s3 p).1.connectionAttempts p = none) := by
  refine ⟨?_, ?_, ?_⟩
  · simp [createPeerConnection, hrec, hmax]
  · intro s2 p2 nm2 o2
    unfold createPeerConnection
    cases hr : mget s2.peerConnections p2 with
    | some _ => simp
    | none =>
      by_cases hm : maxConnectionAttempts ≤ (mget s2.connectionAttempts p2).getD 0
      · simp [hm]
      · cases o2 <;> simp [hm, updConn, mget_mset_self, Nat.le_succ]
  · intro s3 pr h3
    simp [handlePeerLeave, h3, updConn, mget_mdel_self]

/-- Witness for the amended C4 at `exhaustedState`: the terminal rejection. -/
theorem C4_attempt_counter_terminal_witness :
    createPeerConnection exhaustedState "uX" "X" (some 99) =
      { state := exhaustedState, events := [], ret := none,
        err := some "max connection attempts" } :=
  (C4_attempt_counter_terminal exhaustedState "uX" "X" (some 99)
    (by decide) (by decide)).1

/-- Claim C7: with the maximum set to 3, three failed offer creations for peer
`uX` (each one incrementing the counter and removing the freshly inserted
record again) make a 4th `createPeerConnection` call fail fast: it raises
without constructing a new connection, sending anything, or touching the
state — even though offer creation would now succeed. -/
theorem C7_fourth_attempt_rejected :
    maxConnectionAttempts = 3 ∧
    mget (handleSignalingMessage envFail baseState
      (.join "X" "uX")).state.connectionAttempts "uX" = some 1 ∧
    mget (handleSignalingMessage envFail
      (handleSignalingMessage envFail baseState (.join "X" "uX")).state
      (.join "X" "uX")).state.connectionAttempts "uX" = some 2 ∧
    mget exhaustedState.connectionAttempts "uX" = some 3 ∧
    mget exhaustedState.peerConnections "uX" = none ∧
    (createPeerConnection exhaustedState "uX" "X" (some 99)).err =
      some "max connection attempts" ∧
    (createPeerConnection exhaustedState "uX" "X" (some 99)).state =
      exhaustedState ∧
    (createPeerConnection exhaustedState "uX" "X" (some 99)).events = [] := by
  decide

/-! ### C8 -/

/-- Counterexample to claim C8: a negotiation error while handling an offer
from `p1` (whose record exists) is caught and logged, but the claim's "that
one peer's connection record is closed and removed from the registry" is
false — the state, record included, is completely unchanged. -/
theorem C8_counterexample :
    (mget peerState.peerConnections "p1").isSome = true ∧
    (handleOffer peerState 10 "P1" "p1" none).1 = peerState ∧
    (handleOffer peerState 10 "P1" "p1" none).2 = [.logError "handleOffer"] := by
  decide

/-- Claim C8 (amended): negotiation errors are caught and logged and never
touch any other peer; however `handleOffer`/`handleAnswer` errors close and
remove nothing (for a peer with an existing record the state is completely
unchanged); only an offer-creation failure inside `createPeerConnection`
closes the connection it just made and removes the record it just inserted,
leaving the rest of the registry, every other peer's attempt counter, and all
other connections unchanged. -/
theorem C8_negotiation_error_isolation (s : ServiceState) (sdp : Nat)
    (nm p : String) (pr : PeerRecord)
    (hrec : mget s.peerConnections p = some pr) :
    (handleOffer s sdp nm p none).1 = s ∧
    (handleOffer s sdp nm p none).2 = [.logError "handleOffer"] ∧
    (handleAnswer s sdp p false).1 = s ∧
    (handleAnswer s sdp p false).2 = [.logError "handleAnswer"] ∧
    (∀ (s2 : ServiceState) (q qn : String),
      mget s2.peerConnections q = none →
      ¬ maxConnectionAttempts ≤ (mget s2.connectionAttempts q).getD 0 →
      (∀ c ∈ s2.conns, c.id ≠ s2.nextConnId) →
      (createPeerConnection s2 q qn none).state.peerConnections =
        s2.peerConnections ∧
      (createPeerConnection s2 q qn none).state.conns =
        s2.conns ++ [{ id := s2.nextConnId, closed := true
                       senders := (s2.localStream.getD []).map
                         (fun t => { track := some t })
                       localDesc := none, remoteDesc := none, candidates := [] }] ∧
      (∀ r, r ≠ q →
        mget (createPeerConnection s2 q qn none).state.connectionAttempts r =
          mget s2.connectionAttempts r)) := by
  refine ⟨?_, ?_, ?_, ?_, ?_⟩
  · simp [handleOffer, hrec]
  · simp [handleOffer, hrec]
  · simp [handleAnswer, hrec]
  · simp [handleAnswer, hrec]
  · intro s2 q qn hq hm hf
    refine ⟨?_, ?_, ?_⟩
    · simp [createPeerConnection, hq, hm, updConn, mdel_mset_self _ _ _ hq]
    · simp [createPeerConnection, hq, hm, updConn,
        map_id_of_ne_id s2.conns s2.nextConnId _ hf]
    · intro r hr
      simp [createPeerConnection, hq, hm, updConn, mget_mset_ne _ _ _ _ hr]

/-- Witness for the amended C8: the failed offer from `p1` leaves `peerState`
unchanged. -/
theorem C8_negotiation_error_isolation_witness :
    (handleOffer peerState 10 "P1" "p1" none).1 = peerState :=
  (C8_negotiation_error_isolation peerState 10 "P1" "p1"
    { conn := 0, stream := none, name := "P1" } (by decide)).1

/-! ### C5 -/

theorem cpc_keys_nodup (s : ServiceState) (p nm : String) (o : Option Nat)
    (hnd : (s.peerConnections.map Prod.fst).Nodup) :
    ((createPeerConnection s p nm o).state.peerConnections.map Prod.fst).Nodup := by
  unfold createPeerConnection
  cases hr : mget s.peerConnections p with
  | some _ => simpa using hnd
  | none =>
    by_cases hm : maxConnectionAttempts ≤ (mget s.connectionAttempts p).getD 0
    · simpa [hm] using hnd
    · cases o <;>
        simp [hm, updConn, keys_mset_nodup _ _ _ hnd,
          keys_mdel_nodup _ _ (keys_mset_nodup _ _ _ hnd)]

theorem hsm_keys_nodup (env : Env) (s : ServiceState) (m : SignalingMessage)
    (hnd : (s.peerConnections.map Prod.fst).Nodup) :
    ((handleSignalingMessage env s m).state.peerConnections.map Prod.fst).Nodup := by
  unfold handleSignalingMessage
  by_cases hself : m.isLeaveOrJoin = false ∧ m.senderId = s.userId
  · simpa [hself] using hnd
  · cases m with
    | join nm sid =>
      by_cases hs : sid ≠ s.userId
      · simpa [hself, hs] using cpc_keys_nodup s sid nm env.offerResult hnd
      · simpa [hself, hs] using hnd
    | offer sdp nm sid =>
      simp only [hself, if_false]
      unfold handleOffer
      cases hr : mget s.peerConnections sid with
      | some _ => cases env.answerResult <;> simpa [updConn] using hnd
      | none =>
        cases env.answerResult <;>
          simpa [updConn] using keys_mset_nodup _ sid _ hnd
    | answer sdp nm sid =>
      simp only [hself, if_false]
      unfold handleAnswer
      cases hr : mget s.peerConnections sid with
      | some _ => by_cases hb : env.setRemoteOk <;> simpa [hb, updConn] using hnd
      | none => simpa using hnd
    | candidate c nm sid =>
      simp only [hself, if_false]
      unfold handleCandidate
      cases hr : mget s.peerConnections sid with
      | some _ =>
        cases c with
        | none => simpa using hnd
        | some cv => by_cases hb : env.addCandidateOk <;> simpa [hb, updConn] using hnd
      | none => simpa using hnd
    | leave sid =>
      simp only [hself, if_false]
      unfold handlePeerLeave
      cases hr : mget s.peerConnections sid with
      | some _ => simpa [updConn] using keys_mdel_nodup _ sid hnd
      | none => simpa using hnd

theorem stopAndDetachStep_registry (acc : ServiceState) (t : Nat) :
    (stopAndDetachStep acc t).peerConnections = acc.peerConnections := by
  unfold stopAndDetachStep
  exact foldl_fix (fun st => st.peerConnections) (detachStep t) (fun _ _ => rfl) _ _

theorem updateLocalStream_registry (s : ServiceState) (ns : Option (List Nat)) :
    (updateLocalStream s ns).1.peerConnections = s.peerConnections := by
  unfold updateLocalStream
  cases hl : s.localStream <;> cases hn : ns <;>
    simp [foldl_fix (fun st => st.peerConnections) stopAndDetachStep
        stopAndDetachStep_registry,
      foldl_fix (fun st => st.peerConnections) (addTracksStep _) (fun _ _ => rfl)]

theorem hpl_keys_nodup (s : ServiceState) (x : String)
    (hnd : (s.peerConnections.map Prod.fst).Nodup) :
    ((handlePeerLeave s x).1.peerConnections.map Prod.fst).Nodup := by
  unfold handlePeerLeave
  cases hr : mget s.peerConnections x with
  | some _ => simpa [updConn] using keys_mdel_nodup _ x hnd
  | none => simpa using hnd

theorem leaveRoom_registry (s : ServiceState) :
    (leaveRoom s).1.peerConnections = [] := by
  unfold leaveRoom
  cases hc : s.channelReady <;>
    simp [hc, foldl_fix (fun st => st.localStream) closeConnStep (fun _ _ => rfl)] <;>
    cases hl : s.localStream <;> simp [hl]

/-- Claim C5: registry keys stay pairwise distinct across every entry point
(so at most one record per peer id in every reachable state, the constructor
state included), and duplicate `Join`/`Offer` traffic for an id that already
has a record reuses that record; two `Offer`s for the same unestablished id
produce exactly one record. -/
theorem C5_one_record_per_peer (env : Env) (s : ServiceState)
    (m : SignalingMessage) (peerId peerName : String) (tracks : List Nat)
    (st : ConnState) (ns : Option (List Nat)) (o a1 a2 : Option Nat)
    (sdp1 sdp2 : Nat)
    (hnd : (s.peerConnections.map Prod.fst).Nodup) :
    ((handleSignalingMessage env s m).state.peerConnections.map Prod.fst).Nodup ∧
    ((fireOntrack s peerId peerName tracks).1.peerConnections.map Prod.fst).Nodup ∧
    ((fireConnectionStateChange s peerId st).1.peerConnections.map Prod.fst).Nodup ∧
    ((leaveRoom s).1.peerConnections.map Prod.fst).Nodup ∧
    ((updateLocalStream s ns).1.peerConnections.map Prod.fst).Nodup ∧
    (initialState.peerConnections.map Prod.fst).Nodup ∧
    (∀ pr : PeerRecord, mget s.peerConnections peerId = some pr →
      (handleOffer s sdp1 peerName peerId a1).1.peerConnections =
        s.peerConnections ∧
      createPeerConnection s peerId peerName o =
        { state := s, events := [], ret := some pr.conn, err := none }) ∧
    (mget s.peerConnections peerId = none →
      (handleOffer (handleOffer s sdp1 peerName peerId a1).1 sdp2 peerName
          peerId a2).1.peerConnections =
        mset s.peerConnections peerId
          { conn := s.nextConnId, stream := none, name := peerName } ∧
      mget (handleOffer (handleOffer s sdp1 peerName peerId a1).1 sdp2 peerName
          peerId a2).1.peerConnections peerId =
        some { conn := s.nextConnId, stream := none, name := peerName }) := by
  refine ⟨hsm_keys_nodup env s m hnd, ?_, ?_, ?_, ?_, by simp [initialState], ?_, ?_⟩
  · unfold fireOntrack
    cases hr : mget s.peerConnections peerId with
    | some pr => simpa [hr] using keys_mset_nodup _ peerId _ hnd
    | none => simpa [hr] using hnd
  · cases st <;> first
      | exact hnd
      | exact hpl_keys_nodup s peerId hnd
  · rw [leaveRoom_registry]; simp
  · rw [updateLocalStream_registry]; exact hnd
  · intro pr hpr
    constructor
    · unfold handleOffer
      simp only [hpr]
      cases a1 <;> simp [updConn]
    · simp [createPeerConnection, hpr]
  · intro h0
    have h1 : (handleOffer s sdp1 peerName peerId a1).1.peerConnections =
        mset s.peerConnections peerId
          { conn := s.nextConnId, stream := none, name := peerName } := by
      unfold handleOffer
      simp only [h0]
      cases a1 <;> simp [updConn]
    have h2 : mget (handleOffer s sdp1 peerName peerId a1).1.peerConnections peerId =
        some { conn := s.nextConnId, stream := none, name := peerName } := by
      rw [h1]; exact mget_mset_self _ _ _
    have h3 : ∀ r : ServiceState,
        mget r.peerConnections peerId =
          some { conn := s.nextConnId, stream := none, name := peerName } →
        (handleOffer r sdp2 peerName peerId a2).1.peerConnections =
          r.peerConnections := by
      intro r hr
      unfold handleOffer
      simp only [hr]
      cases a2 <;> simp [updConn]
    refine ⟨(h3 _ h2).trans h1, ?_⟩
    rw [h3 _ h2, h1]
    exact mget_mset_self _ _ _

/-- Witness for C5: after a duplicate `Offer` round for the unestablished peer
`p2` in `peerState`, registry keys are still pairwise distinct. -/
theorem C5_one_record_per_peer_witness :
    ((handleSignalingMessage envOK peerState (.offer 10 "P2" "p2")).state.peerConnections.map
      Prod.fst).Nodup :=
  (C5_one_record_per_peer envOK peerState (.offer 10 "P2" "p2") "p1" "P1" [5]
    ConnState.failed (some [8, 9]) (some 1) (some 2) (some 3) 10 11 (by decide)).1

/-! ### C9 -/

theorem closeConnStep_closes (st : ServiceState) (p : String × PeerRecord) :
    ∀ c ∈ (closeConnStep st p).conns, c.id = p.2.conn → c.closed = true := by
  intro c hc hid
  unfold closeConnStep updConn at hc
  simp only [List.mem_map] at hc
  rcases hc with ⟨c0, hc0, hmap⟩
  by_cases h0 : c0.id = p.2.conn
  · rw [← hmap, if_pos h0]
  · rw [← hmap, if_neg h0] at hid ⊢
    exact absurd hid h0

theorem closeConnStep_keeps_closed (st : ServiceState) (a b : String × PeerRecord) :
    (∀ c ∈ st.conns, c.id = b.2.conn → c.closed = true) →
    ∀ c ∈ (closeConnStep st a).conns, c.id = b.2.conn → c.closed = true := by
  intro hP c hc hid
  unfold closeConnStep updConn at hc
  simp only [List.mem_map] at hc
  rcases hc with ⟨c0, hc0, hmap⟩
  by_cases h0 : c0.id = a.2.conn
  · rw [← hmap, if_pos h0]
  · rw [← hmap, if_neg h0] at hid ⊢
    exact hP c0 hc0 hid

theorem closeConnStep_keeps_exists (st : ServiceState) (a : String × PeerRecord)
    (cid : Nat) (h : ∃ c ∈ st.conns, c.id = cid) :
    ∃ c ∈ (closeConnStep st a).conns, c.id = cid := by
  rcases h with ⟨c, hc, hid⟩
  unfold closeConnStep updConn
  simp only [List.mem_map]
  by_cases h0 : c.id = a.2.conn
  · exact ⟨{ c with closed := true }, ⟨c, hc, if_pos h0⟩, hid⟩
  · exact ⟨c, ⟨c, hc, if_neg h0⟩, hid⟩

theorem leaveRoom_conns (s : ServiceState) :
    (leaveRoom s).1.conns = (s.peerConnections.foldl closeConnStep s).conns := by
  unfold leaveRoom
  cases hc : s.channelReady <;>
    simp [hc, foldl_fix (fun st => st.localStream) closeConnStep (fun _ _ => rfl)] <;>
    cases hl : s.localStream <;> simp [hl]

theorem leaveRoom_localStream (s : ServiceState) :
    (leaveRoom s).1.localStream = none := by
  unfold leaveRoom
  cases hc : s.channelReady <;>
    simp [hc, foldl_fix (fun st => st.localStream) closeConnStep (fun _ _ => rfl)] <;>
    cases hl : s.localStream <;> simp [hl]

theorem leaveRoom_stoppedTracks (s : ServiceState) :
    (leaveRoom s).1.stoppedTracks = s.stoppedTracks ++ s.localStream.getD [] := by
  unfold leaveRoom
  cases hc : s.channelReady <;>
    simp [hc, foldl_fix (fun st => st.localStream) closeConnStep (fun _ _ => rfl),
      foldl_fix (fun st => st.stoppedTracks) closeConnStep (fun _ _ => rfl)] <;>
    cases hl : s.localStream <;> simp [hl]

/-- Claim C9: with the signaling channel set up, `leaveRoom` broadcasts
`Leave` with the local user id and unsubscribes, closes the connection of
every registry record, empties the registry, stops every track of the local
stream (each appended once to the stopped set) and drops the stream; when no
connections exist and no local stream is held, the state is completely
unchanged, so nothing happens beyond the broadcast and the unsubscribe. -/
theorem C9_leaveRoom_clean_teardown (s : ServiceState)
    (hch : s.channelReady = true)
    (hex : ∀ pr ∈ s.peerConnections, ∃ c ∈ s.conns, c.id = pr.2.conn) :
    (leaveRoom s).2 = [.sentMessage (.leave s.userId), .unsubscribed] ∧
    (leaveRoom s).1.peerConnections = [] ∧
    (leaveRoom s).1.localStream = none ∧
    (leaveRoom s).1.stoppedTracks = s.stoppedTracks ++ s.localStream.getD [] ∧
    (∀ pr ∈ s.peerConnections,
      ∃ c ∈ (leaveRoom s).1.conns, c.id = pr.2.conn ∧ c.closed = true) ∧
    (s.peerConnections = [] → s.localStream = none → (leaveRoom s).1 = s) := by
  refine ⟨by rw [leaveRoom_events, if_pos hch], leaveRoom_registry s,
    leaveRoom_localStream s, leaveRoom_stoppedTracks s, ?_, ?_⟩
  · intro pr hpr
    rw [leaveRoom_conns]
    have hclosed : ∀ c ∈ (s.peerConnections.foldl closeConnStep s).conns,
        c.id = pr.2.conn → c.closed = true :=
      foldl_establish closeConnStep
        (fun b st => ∀ c ∈ st.conns, c.id = b.2.conn → c.closed = true)
        closeConnStep_closes
        (fun st a b hb => closeConnStep_keeps_closed st a b hb)
        s.peerConnections s pr hpr
    have hexists : ∃ c ∈ (s.peerConnections.foldl closeConnStep s).conns,
        c.id = pr.2.conn :=
      foldl_inv closeConnStep (fun st => ∃ c ∈ st.conns, c.id = pr.2.conn)
        (fun st a h => closeConnStep_keeps_exists st a _ h)
        s.peerConnections s (hex pr hpr)
    rcases hexists with ⟨c, hc, hid⟩
    exact ⟨c, hc, hid, hclosed c hc hid⟩
  · rcases s with ⟨pc, ca, cs, strs, ls, stk, rid, uid, unm, ch, nci, nsi⟩
    intro h1 h2
    simp only at h1 h2 hch
    subst h1
    subst h2
    subst hch
    simp [leaveRoom]

/-- Witness for C9: in `peerState` (one live connection), `leaveRoom`
broadcasts the leave and unsubscribes. -/
theorem C9_leaveRoom_clean_teardown_witness :
    (leaveRoom peerState).2 =
      [.sentMessage (.leave peerState.userId), .unsubscribed] :=
  (C9_leaveRoom_clean_teardown peerState (by decide) (by decide)).1

/-! ### C6 -/

/-- Number of senders currently carrying track `t`. -/
def countTrack (sds : List Sender) (t : Nat) : Nat :=
  (sds.filter (fun sd => sd.track = some t)).length

theorem countTrack_replace_self (sds : List Sender) (t : Nat) :
    countTrack (replaceFirstSenderWithTrack sds t) t = countTrack sds t - 1 := by
  induction sds with
  | nil => rfl
  | cons sd rest ih =>
    by_cases h : sd.track = some t
    · simp [replaceFirstSenderWithTrack, h, countTrack, List.filter]
    · simp only [replaceFirstSenderWithTrack, h, if_false]
      simp [countTrack, List.filter, h] at ih ⊢
      exact ih

theorem countTrack_cons (sd : Sender) (rest : List Sender) (t : Nat) :
    countTrack (sd :: rest) t =
      (if sd.track = some t then 1 else 0) + countTrack rest t := by
  by_cases h : sd.track = some t <;> simp [countTrack, List.filter, h] <;> omega

theorem countTrack_replace_le (sds : List Sender) (t t2 : Nat) :
    countTrack (replaceFirstSenderWithTrack sds t2) t ≤ countTrack sds t := by
  induction sds with
  | nil => exact Nat.le_refl _
  | cons sd rest ih =>
    by_cases h : sd.track = some t2
    · rw [replaceFirstSenderWithTrack, if_pos h, countTrack_cons, countTrack_cons]
      by_cases h2 : sd.track = some t <;> simp [h2] <;> omega
    · rw [replaceFirstSenderWithTrack, if_neg h, countTrack_cons, countTrack_cons]
      by_cases h2 : sd.track = some t <;> simp [h2] <;> omega

theorem countTrack_append (a b : List Sender) (t : Nat) :
    countTrack (a ++ b) t = countTrack a t + countTrack b t := by
  simp [countTrack, List.filter_append]

theorem countTrack_new_senders (nt : List Nat) (t : Nat) (h : t ∉ nt) :
    countTrack (nt.map (fun x => { track := some x })) t = 0 := by
  induction nt with
  | nil => rfl
  | cons x rest ih =>
    have hx : ¬ (x = t) := fun e => h (e ▸ List.mem_cons_self x rest)
    have hx2 : ¬ ((some x : Option Nat) = some t) := by simp [hx]
    simp only [List.map_cons]
    simp [countTrack, List.filter, hx2] at ih ⊢
    exact ih (fun hm => h (List.mem_cons_of_mem x hm))

theorem mem_replace_of_pos (sds : List Sender) (t x : Nat) (sd : Sender)
    (hsd : sd ∈ replaceFirstSenderWithTrack sds t) :
    sd ∈ sds ∨ sd = { track := none } := by
  induction sds with
  | nil => cases hsd
  | cons s0 rest ih =>
    by_cases h : s0.track = some t
    · rw [replaceFirstSenderWithTrack, if_pos h] at hsd
      rcases List.mem_cons.mp hsd with rfl | hm
      · exact Or.inr rfl
      · exact Or.inl (List.mem_cons_of_mem s0 hm)
    · rw [replaceFirstSenderWithTrack, if_neg h] at hsd
      rcases List.mem_cons.mp hsd with rfl | hm
      · exact Or.inl (List.mem_cons_self _ _)
      · rcases ih hm with hm2 | hm2
        · exact Or.inl (List.mem_cons_of_mem s0 hm2)
        · exact Or.inr hm2

theorem updConn_forall {Pc : Conn → Prop} (st : ServiceState) (cid : Nat)
    (f : Conn → Conn)
    (h : ∀ c ∈ st.conns, Pc c) (hf : ∀ c ∈ st.conns, Pc c → Pc (f c)) :
    ∀ c ∈ (updConn st cid f).conns, Pc c := by
  intro c hc
  unfold updConn at hc
  simp only [List.mem_map] at hc
  rcases hc with ⟨c0, hc0, hmap⟩
  by_cases h0 : c0.id = cid
  · rw [← hmap, if_pos h0]; exact hf c0 hc0 (h c0 hc0)
  · rw [← hmap, if_neg h0]; exact h c0 hc0

theorem updConn_keeps_exists (st : ServiceState) (cid0 : Nat) (f : Conn → Conn)
    (hf : ∀ c, (f c).id = c.id) (cid : Nat)
    (h : ∃ c ∈ st.conns, c.id = cid) :
    ∃ c ∈ (updConn st cid0 f).conns, c.id = cid := by
  rcases h with ⟨c, hc, hid⟩
  unfold updConn
  simp only [List.mem_map]
  by_cases h0 : c.id = cid0
  · exact ⟨f c, ⟨c, hc, if_pos h0⟩, (hf c).trans hid⟩
  · exact ⟨c, ⟨c, hc, if_neg h0⟩, hid⟩

theorem updConn_idclosed (st : ServiceState) (cid : Nat) (f : Conn → Conn)
    (hf : ∀ c, (f c).id = c.id ∧ (f c).closed = c.closed) :
    (updConn st cid f).conns.map (fun c => (c.id, c.closed)) =
      st.conns.map (fun c => (c.id, c.closed)) := by
  unfold updConn
  rw [List.map_map]
  refine List.map_congr_left ?_
  intro c _
  by_cases h0 : c.id = cid
  · simp [h0, (hf c).1, (hf c).2]
  · simp [h0]

theorem foldl_establish_mem {α : Type} (f : ServiceState → α → ServiceState)
    (I : ServiceState → Prop) (P : α → ServiceState → Prop) (l : List α)
    (hI : ∀ s a, I s → I (f s a))
    (hest : ∀ s a, a ∈ l → I s → P a (f s a))
    (hpres : ∀ s a b, P b s → P b (f s a)) :
    ∀ (l2 : List α), (∀ x ∈ l2, x ∈ l) → ∀ s, I s → ∀ a ∈ l2, P a (l2.foldl f s) := by
  intro l2
  induction l2 with
  | nil => intro _ s _ a ha; cases ha
  | cons x rest ih =>
    intro hsub s hIs a ha
    rcases List.mem_cons.mp ha with rfl | ha
    · exact foldl_inv f (P a) (fun s b h => hpres s b a h) rest (f s a)
        (hest s a (hsub a (List.mem_cons_self a rest)) hIs)
    · exact ih (fun x hx => hsub x (List.mem_cons_of_mem _ hx)) (f s x)
        (hI s x hIs) a ha

theorem detachStep_count_le (t0 t : Nat) (st : ServiceState)
    (p : String × PeerRecord)
    (h : ∀ c ∈ st.conns, countTrack c.senders t ≤ 1) :
    ∀ c ∈ (detachStep t0 st p).conns, countTrack c.senders t ≤ 1 :=
  updConn_forall st p.2.conn _ h
    (fun c _ hle => le_trans (countTrack_replace_le c.senders t t0) hle)

theorem detachStep_establishes (t : Nat) (st : ServiceState)
    (p : String × PeerRecord)
    (hle : ∀ c ∈ st.conns, countTrack c.senders t ≤ 1) :
    ∀ c ∈ (detachStep t st p).conns, c.id = p.2.conn →
      countTrack c.senders t = 0 := by
  intro c hc hid
  unfold detachStep updConn at hc
  simp only [List.mem_map] at hc
  rcases hc with ⟨c0, hc0, hmap⟩
  by_cases h0 : c0.id = p.2.conn
  · rw [← hmap, if_pos h0]
    have h1 := countTrack_replace_self c0.senders t
    have h2 := hle c0 hc0
    simp only [] at h1 ⊢
    omega
  · rw [← hmap, if_neg h0] at hid
    exact absurd hid h0

theorem detachStep_zero_pres (t0 t : Nat) (st : ServiceState)
    (a b : String × PeerRecord)
    (h : ∀ c ∈ st.conns, c.id = b.2.conn → countTrack c.senders t = 0) :
    ∀ c ∈ (detachStep t0 st a).conns, c.id = b.2.conn →
      countTrack c.senders t = 0 := by
  intro c hc hid
  unfold detachStep updConn at hc
  simp only [List.mem_map] at hc
  rcases hc with ⟨c0, hc0, hmap⟩
  by_cases h0 : c0.id = a.2.conn
  · rw [← hmap, if_pos h0] at hid ⊢
    dsimp only at hid ⊢
    have := h c0 hc0 hid
    have hle := countTrack_replace_le c0.senders t t0
    omega
  · rw [← hmap, if_neg h0] at hid ⊢
    exact h c0 hc0 hid

theorem addTracksStep_zero_pres (nt : List Nat) (t : Nat) (ht : t ∉ nt)
    (st : ServiceState) (a b : String × PeerRecord)
    (h : ∀ c ∈ st.conns, c.id = b.2.conn → countTrack c.senders t = 0) :
    ∀ c ∈ (addTracksStep nt st a).conns, c.id = b.2.conn →
      countTrack c.senders t = 0 := by
  intro c hc hid
  unfold addTracksStep updConn at hc
  simp only [List.mem_map] at hc
  rcases hc with ⟨c0, hc0, hmap⟩
  by_cases h0 : c0.id = a.2.conn
  · rw [← hmap, if_pos h0] at hid ⊢
    simp only [] at hid ⊢
    rw [countTrack_append, h c0 hc0 hid, countTrack_new_senders nt t ht]
  · rw [← hmap, if_neg h0] at hid ⊢
    exact h c0 hc0 hid

theorem stopAndDetachStep_keeps_exists (st : ServiceState) (t cid : Nat)
    (h : ∃ c ∈ st.conns, c.id = cid) :
    ∃ c ∈ (stopAndDetachStep st t).conns, c.id = cid := by
  unfold stopAndDetachStep
  exact foldl_inv (detachStep t) (fun x => ∃ c ∈ x.conns, c.id = cid)
    (fun x p hx => by
      unfold detachStep
      exact updConn_keeps_exists x p.2.conn
        (fun c => { c with senders := replaceFirstSenderWithTrack c.senders t })
        (fun _ => rfl) cid hx) _ _ h

theorem stopAndDetachStep_count_le (st : ServiceState) (t0 t : Nat)
    (h : ∀ c ∈ st.conns, countTrack c.senders t ≤ 1) :
    ∀ c ∈ (stopAndDetachStep st t0).conns, countTrack c.senders t ≤ 1 := by
  unfold stopAndDetachStep
  exact foldl_inv (detachStep t0)
    (fun x => ∀ c ∈ x.conns, countTrack c.senders t ≤ 1)
    (fun x p hx => detachStep_count_le t0 t x p hx) _ _ h

theorem stopAndDetachStep_zero_pres (st : ServiceState) (t0 t : Nat)
    (b : String × PeerRecord)
    (h : ∀ c ∈ st.conns, c.id = b.2.conn → countTrack c.senders t = 0) :
    ∀ c ∈ (stopAndDetachStep st t0).conns, c.id = b.2.conn →
      countTrack c.senders t = 0 := by
  unfold stopAndDetachStep
  exact foldl_inv (detachStep t0)
    (fun x => ∀ c ∈ x.conns, c.id = b.2.conn → countTrack c.senders t = 0)
    (fun x p hx => detachStep_zero_pres t0 t x p b hx) _ _ h

theorem stopAndDetachStep_stopped (st : ServiceState) (t : Nat) :
    (stopAndDetachStep st t).stoppedTracks = st.stoppedTracks ++ [t] := by
  unfold stopAndDetachStep
  exact foldl_fix (fun x => x.stoppedTracks) (detachStep t) (fun _ _ => rfl) _ _

theorem foldl_stop_stopped (l : List Nat) (st : ServiceState) :
    (l.foldl stopAndDetachStep st).stoppedTracks = st.stoppedTracks ++ l := by
  induction l generalizing st with
  | nil => simp
  | cons t rest ih =>
    rw [List.foldl_cons, ih, stopAndDetachStep_stopped]
    simp

theorem detachStep_idclosed (t : Nat) (st : ServiceState) (p : String × PeerRecord) :
    (detachStep t st p).conns.map (fun c => (c.id, c.closed)) =
      st.conns.map (fun c => (c.id, c.closed)) := by
  unfold detachStep
  exact updConn_idclosed st p.2.conn
    (fun c => { c with senders := replaceFirstSenderWithTrack c.senders t })
    (fun c => ⟨rfl, rfl⟩)

theorem stopAndDetachStep_idclosed (st : ServiceState) (t : Nat) :
    (stopAndDetachStep st t).conns.map (fun c => (c.id, c.closed)) =
      st.conns.map (fun c => (c.id, c.closed)) := by
  unfold stopAndDetachStep
  exact foldl_fix (fun x => x.conns.map (fun c => (c.id, c.closed)))
    (detachStep t) (fun x p => detachStep_idclosed t x p) _ _

theorem addTracksStep_idclosed (nt : List Nat) (st : ServiceState)
    (p : String × PeerRecord) :
    (addTracksStep nt st p).conns.map (fun c => (c.id, c.closed)) =
      st.conns.map (fun c => (c.id, c.closed)) := by
  unfold addTracksStep
  exact updConn_idclosed st p.2.conn
    (fun c => { c with senders := c.senders ++ nt.map (fun t => { track := some t }) })
    (fun c => ⟨rfl, rfl⟩)

theorem updateLocalStream_some_eq (s : ServiceState) (nt : List Nat) :
    updateLocalStream s (some nt) =
      (({ (s.localStream.getD []).foldl stopAndDetachStep s with
            localStream := some nt } : ServiceState).peerConnections.foldl
          (addTracksStep nt)
          { (s.localStream.getD []).foldl stopAndDetachStep s with
            localStream := some nt },
        []) := by
  unfold updateLocalStream
  cases hl : s.localStream <;> simp [hl]

theorem addTracksStep_keeps_exists (nt : List Nat) (st : ServiceState)
    (a : String × PeerRecord) (cid : Nat)
    (h : ∃ c ∈ st.conns, c.id = cid) :
    ∃ c ∈ (addTracksStep nt st a).conns, c.id = cid := by
  unfold addTracksStep
  exact updConn_keeps_exists st a.2.conn
    (fun c => { c with senders := c.senders ++ nt.map (fun t => { track := some t }) })
    (fun _ => rfl) cid h

theorem addTracksStep_attaches (nt : List Nat) (st : ServiceState)
    (a : String × PeerRecord)
    (h : ∃ c ∈ st.conns, c.id = a.2.conn) :
    ∃ c ∈ (addTracksStep nt st a).conns, c.id = a.2.conn ∧
      ∀ t ∈ nt, ∃ sd ∈ c.senders, sd.track = some t := by
  rcases h with ⟨c, hc, hid⟩
  unfold addTracksStep updConn
  simp only [List.mem_map]
  refine ⟨{ c with senders := c.senders ++ nt.map (fun t => { track := some t }) },
    ⟨c, hc, if_pos hid⟩, hid, ?_⟩
  intro t ht
  exact ⟨{ track := some t }, List.mem_append_right _ (List.mem_map_of_mem _ ht), rfl⟩

theorem addTracksStep_keeps_attached (nt : List Nat) (st : ServiceState)
    (a : String × PeerRecord) (cid : Nat)
    (h : ∃ c ∈ st.conns, c.id = cid ∧ ∀ t ∈ nt, ∃ sd ∈ c.senders, sd.track = some t) :
    ∃ c ∈ (addTracksStep nt st a).conns, c.id = cid ∧
      ∀ t ∈ nt, ∃ sd ∈ c.senders, sd.track = some t := by
  rcases h with ⟨c, hc, hid, hall⟩
  unfold addTracksStep updConn
  simp only [List.mem_map]
  by_cases h0 : c.id = a.2.conn
  · refine ⟨{ c with senders := c.senders ++ nt.map (fun t => { track := some t }) },
      ⟨c, hc, if_pos h0⟩, hid, ?_⟩
    intro t ht
    rcases hall t ht with ⟨sd, hsd, htr⟩
    exact ⟨sd, List.mem_append_left _ hsd, htr⟩
  · exact ⟨c, ⟨c, hc, if_neg h0⟩, hid, hall⟩

theorem stopAndDetachStep_detaches (reg : List (String × PeerRecord))
    (st : ServiceState) (t : Nat)
    (hregst : st.peerConnections = reg)
    (hle : ∀ c ∈ st.conns, countTrack c.senders t ≤ 1) :
    ∀ pr ∈ reg, ∀ c ∈ (stopAndDetachStep st t).conns, c.id = pr.2.conn →
      countTrack c.senders t = 0 := by
  intro pr hpr
  have key := foldl_establish_mem (detachStep t)
    (fun x => ∀ c ∈ x.conns, countTrack c.senders t ≤ 1)
    (fun p x => ∀ c ∈ x.conns, c.id = p.2.conn → countTrack c.senders t = 0)
    reg
    (fun x p hx => detachStep_count_le t t x p hx)
    (fun x p _ hx => detachStep_establishes t x p hx)
    (fun x p b hb => detachStep_zero_pres t t x p b hb)
    st.peerConnections (by rw [hregst]; exact fun x hx => hx)
    { st with stoppedTracks := st.stoppedTracks ++ [t] } hle
    pr (by rw [hregst]; exact hpr)
  exact key

/-- Claim C6: `updateLocalStream(newStream)` emits no event at all — in
particular no signaling message, so no new `Offer`/`Answer` exchange — stops
every track of the previous local stream (each appended once to the stopped
set), detaches the old tracks from every registered connection's senders
without closing or replacing any connection (connection ids and closed flags
are untouched), leaves the registry — keys and records — unchanged, installs
the new stream, and afterwards every registered connection has a sender for
every track of the new stream. -/
theorem C6_stream_swap_frame (s : ServiceState) (nt : List Nat)
    (hone : ∀ t ∈ s.localStream.getD [], ∀ c ∈ s.conns, countTrack c.senders t ≤ 1)
    (hdisj : ∀ t ∈ s.localStream.getD [], t ∉ nt)
    (hex : ∀ pr ∈ s.peerConnections, ∃ c ∈ s.conns, c.id = pr.2.conn) :
    (updateLocalStream s (some nt)).2 = [] ∧
    (updateLocalStream s (some nt)).1.stoppedTracks =
      s.stoppedTracks ++ s.localStream.getD [] ∧
    (updateLocalStream s (some nt)).1.conns.map (fun c => (c.id, c.closed)) =
      s.conns.map (fun c => (c.id, c.closed)) ∧
    (updateLocalStream s (some nt)).1.peerConnections = s.peerConnections ∧
    (updateLocalStream s (some nt)).1.localStream = some nt ∧
    (∀ pr ∈ s.peerConnections, ∃ c ∈ (updateLocalStream s (some nt)).1.conns,
      c.id = pr.2.conn ∧ ∀ t ∈ nt, ∃ sd ∈ c.senders, sd.track = some t) ∧
    (∀ t ∈ s.localStream.getD [], ∀ pr ∈ s.peerConnections,
      ∀ c ∈ (updateLocalStream s (some nt)).1.conns,
        c.id = pr.2.conn → countTrack c.senders t = 0) := by
  rw [updateLocalStream_some_eq]
  set ot := s.localStream.getD [] with hot
  set s1 := ot.foldl stopAndDetachStep s with hs1
  set s2 : ServiceState := { s1 with localStream := some nt } with hs2
  set s3 := s2.peerConnections.foldl (addTracksStep nt) s2 with hs3
  have hreg1 : s1.peerConnections = s.peerConnections :=
    foldl_fix (fun x => x.peerConnections) stopAndDetachStep
      stopAndDetachStep_registry ot s
  have hreg2 : s2.peerConnections = s.peerConnections := hreg1
  have hreg3 : s3.peerConnections = s.peerConnections :=
    (foldl_fix (fun x => x.peerConnections) (addTracksStep nt)
      (fun _ _ => rfl) s2.peerConnections s2).trans hreg2
  have hdet1 : ∀ t ∈ ot, ∀ pr ∈ s.peerConnections, ∀ c ∈ s1.conns,
      c.id = pr.2.conn → countTrack c.senders t = 0 :=
    foldl_establish_mem stopAndDetachStep
      (fun x => (∀ u ∈ ot, ∀ c ∈ x.conns, countTrack c.senders u ≤ 1) ∧
        x.peerConnections = s.peerConnections)
      (fun t x => ∀ pr ∈ s.peerConnections, ∀ c ∈ x.conns,
        c.id = pr.2.conn → countTrack c.senders t = 0)
      ot
      (fun x t hx =>
        ⟨fun u hu => stopAndDetachStep_count_le x t u (hx.1 u hu),
         (stopAndDetachStep_registry x t).trans hx.2⟩)
      (fun x t ht hx =>
        stopAndDetachStep_detaches s.peerConnections x t hx.2 (hx.1 t ht))
      (fun x t b hP pr hpr =>
        stopAndDetachStep_zero_pres x t b pr (hP pr hpr))
      ot (fun x hx => hx) s ⟨hone, rfl⟩
  have hexs2 : ∀ pr ∈ s.peerConnections, ∃ c ∈ s2.conns, c.id = pr.2.conn :=
    fun pr hpr =>
      foldl_inv stopAndDetachStep (fun x => ∃ c ∈ x.conns, c.id = pr.2.conn)
        (fun x t hx => stopAndDetachStep_keeps_exists x t _ hx) ot s (hex pr hpr)
  refine ⟨rfl, ?_, ?_, hreg3, ?_, ?_, ?_⟩
  · exact (foldl_fix (fun x => x.stoppedTracks) (addTracksStep nt)
      (fun _ _ => rfl) s2.peerConnections s2).trans (foldl_stop_stopped ot s)
  · exact (foldl_fix (fun x => x.conns.map (fun c => (c.id, c.closed)))
      (addTracksStep nt) (fun x p => addTracksStep_idclosed nt x p)
      s2.peerConnections s2).trans
      (foldl_fix (fun x => x.conns.map (fun c => (c.id, c.closed)))
        stopAndDetachStep (fun x t => stopAndDetachStep_idclosed x t) ot s)
  · exact foldl_fix (fun x => x.localStream) (addTracksStep nt)
      (fun _ _ => rfl) s2.peerConnections s2
  · intro pr hpr
    exact foldl_establish_mem (addTracksStep nt)
      (fun x => ∀ q ∈ s.peerConnections, ∃ c ∈ x.conns, c.id = q.2.conn)
      (fun a x => ∃ c ∈ x.conns, c.id = a.2.conn ∧
        ∀ t ∈ nt, ∃ sd ∈ c.senders, sd.track = some t)
      s.peerConnections
      (fun x a hx q hq => addTracksStep_keeps_exists nt x a _ (hx q hq))
      (fun x a ha hx => addTracksStep_attaches nt x a (hx a ha))
      (fun x a b hP => addTracksStep_keeps_attached nt x a _ hP)
      s2.peerConnections (by rw [hreg2]; exact fun x hx => hx)
      s2 hexs2 pr (by rw [hreg2]; exact hpr)
  · intro t ht pr hpr
    exact foldl_inv (addTracksStep nt)
      (fun x => ∀ q ∈ s.peerConnections, ∀ c ∈ x.conns,
        c.id = q.2.conn → countTrack c.senders t = 0)
      (fun x a hx q hq => addTracksStep_zero_pres nt t (hdisj t ht) x a q (hx q hq))
      s2.peerConnections s2 (hdet1 t ht) pr hpr

/-- Witness for C6: swapping `peerState`'s camera stream for the screen
stream `[8, 9]` leaves the registry unchanged. -/
theorem C6_stream_swap_frame_witness :
    (updateLocalStream peerState (some [8, 9])).1.peerConnections =
      peerState.peerConnections :=
  (C6_stream_swap_frame peerState [8, 9] (by decide) (by decide)
    (by decide)).2.2.2.1
